import Mathlib

/-!
# Verification of the log-pipeline mapper/reducer

Shallow embedding of `src/mapper.py` and `src/reducer.py` of the
`projet-bigdata` repository, together with proofs about the embedded
functions.

The embedding follows the Python sources line by line:

* `parse_line` embeds `mapper.parse_line` (JSON attempt first, then the
  pipe-separated fallback).
* `mapperEvent` embeds the per-line behaviour of `mapper.main`
  (emit a tab-separated pair, or report the line on stderr).
* `processLine`, `redStep`, `aggregate` and `aggregatorOutput` embed
  `reducer.main`: per-line classification, the running-total table
  (a `defaultdict(int)`, modelled as an insertion-ordered association
  list), and the final `sorted(counts.items(), key=lambda x: (-x[1], x[0]))`.

Python library routines used by the sources are embedded as well:

* `pyStrip` models `str.strip()` on the ASCII whitespace characters.
* `pyInt` models `int(str)` (optional sign, decimal digits, single
  underscores between digits; the argument is already stripped at every
  call site).
* `jsonDecode` models `json.loads` for null, booleans, strings (with the
  standard escapes), integer numerals, arrays and objects.  Fractional and
  exponent numerals (Python floats) and astral/surrogate escape pairs are
  outside the model; lines using them simply fail to decode here.
* `pyStr` models Python `str()`; on lists and dicts it follows `repr`,
  with the simple quote/escape convention (only such values reachable
  from primitive JSON fields are relied on in the theorems).
-/

/-! ## Python string helpers -/

/-- Whitespace characters stripped by Python `str.strip()` (ASCII part). -/
def isPySpace (c : Char) : Bool :=
  c = ' ' || c = '\t' || c = '\n' || c = '\r' || c = '\x0b' || c = '\x0c'

/-- Drop leading Python whitespace. -/
def trimL (cs : List Char) : List Char := cs.dropWhile isPySpace

/-- Drop trailing Python whitespace. -/
def trimR (cs : List Char) : List Char := (trimL cs.reverse).reverse

/-- Python `s.strip()`: remove leading and trailing whitespace. -/
def pyStrip (s : String) : String := ⟨trimR (trimL s.data)⟩

/-- Python `line.rstrip("\r\n")`: drop trailing carriage returns and
newlines (both mapper and reducer apply this before parsing). -/
def rstripCRLF (s : String) : String :=
  ⟨(s.data.reverse.dropWhile (fun c => c = '\r' || c = '\n')).reverse⟩

/-- Python `s.split(sep)` for a one-character separator `sep`. -/
def splitOnChar (sep : Char) : List Char → List (List Char)
  | [] => [[]]
  | c :: rest =>
    let r := splitOnChar sep rest
    if c = sep then [] :: r
    else
      match r with
      | h :: t => (c :: h) :: t
      | [] => [[c]]

/-- Python `s.split("\t", 1)`: `none` when the string holds no tab
(`len(parts) == 1`), otherwise the part before and after the first tab. -/
def splitFirstTab : List Char → Option (List Char × List Char)
  | [] => none
  | c :: cs =>
    if c = '\t' then some ([], cs)
    else
      match splitFirstTab cs with
      | some (a, b) => some (c :: a, b)
      | none => none

/-- Digit tail of Python `int(str)`: decimal digits with single
underscores allowed between digits. -/
def pyIntDigits : List Char → Nat → Option Nat
  | [], acc => some acc
  | '_' :: c :: rest, acc =>
    if c.isDigit then pyIntDigits rest (acc * 10 + (c.toNat - 48)) else none
  | ['_'], _ => none
  | c :: rest, acc =>
    if c.isDigit then pyIntDigits rest (acc * 10 + (c.toNat - 48)) else none

/-- Python `int(str)` on an already-stripped string: optional sign, then
decimal digits (with single underscores between digits).  Returns `none`
exactly when Python raises `ValueError`. -/
def pyInt (s : String) : Option Int :=
  let p : Bool × List Char :=
    match s.data with
    | '+' :: t => (false, t)
    | '-' :: t => (true, t)
    | cs => (false, cs)
  match p.2 with
  | [] => none
  | c :: rest =>
    if c.isDigit then
      match pyIntDigits rest (c.toNat - 48) with
      | some n => some (if p.1 then -(n : Int) else (n : Int))
      | none => none
    else none

/-! ## JSON values and `json.loads` -/

/-- JSON values as produced by `json.loads` (numbers restricted to
integers; see the header note). -/
inductive Json where
  | null : Json
  | bool (b : Bool) : Json
  | num (n : Int) : Json
  | str (s : String) : Json
  | arr (elems : List Json) : Json
  | obj (kvs : List (String × Json)) : Json
deriving Repr

/-- Python `dict` lookup on the member list of a decoded object:
duplicate keys are resolved last-wins, as `json.loads` does. -/
def dictGet (kvs : List (String × Json)) (k : String) : Option Json :=
  match kvs with
  | [] => none
  | (k', v) :: rest =>
    match dictGet rest k with
    | some r => some r
    | none => if k' = k then some v else none

/-- Python truthiness (`if action:`) of a decoded JSON value. -/
def jsonTruthy : Json → Bool
  | Json.null => false
  | Json.bool b => b
  | Json.num n => n != 0
  | Json.str s => s != ""
  | Json.arr l => !l.isEmpty
  | Json.obj kvs => !kvs.isEmpty

/-- Primitive JSON values (null, booleans, numbers, strings). -/
def Json.isPrimitive : Json → Prop
  | Json.arr _ => False
  | Json.obj _ => False
  | _ => True

/-- Hexadecimal digit value, for `\uXXXX` escapes. -/
def hexVal (c : Char) : Option Nat :=
  if '0' ≤ c ∧ c ≤ '9' then some (c.toNat - 48)
  else if 'a' ≤ c ∧ c ≤ 'f' then some (c.toNat - 97 + 10)
  else if 'A' ≤ c ∧ c ≤ 'F' then some (c.toNat - 65 + 10)
  else none

/-- JSON insignificant whitespace. -/
def skipWs : List Char → List Char
  | [] => []
  | c :: cs => if c = ' ' || c = '\t' || c = '\n' || c = '\r' then skipWs cs else c :: cs

/-- Body of a JSON string literal, after the opening quote: returns the
decoded string and the input following the closing quote. -/
def parseJStringAux : List Char → List Char → Option (String × List Char)
  | '"' :: rest, acc => some (⟨acc.reverse⟩, rest)
  | '\\' :: e :: rest, acc =>
    match e with
    | '"' => parseJStringAux rest ('"' :: acc)
    | '\\' => parseJStringAux rest ('\\' :: acc)
    | '/' => parseJStringAux rest ('/' :: acc)
    | 'b' => parseJStringAux rest ('\x08' :: acc)
    | 'f' => parseJStringAux rest ('\x0c' :: acc)
    | 'n' => parseJStringAux rest ('\n' :: acc)
    | 'r' => parseJStringAux rest ('\r' :: acc)
    | 't' => parseJStringAux rest ('\t' :: acc)
    | 'u' =>
      match rest with
      | h1 :: h2 :: h3 :: h4 :: rest2 =>
        match hexVal h1, hexVal h2, hexVal h3, hexVal h4 with
        | some a, some b, some c, some d =>
          parseJStringAux rest2 (Char.ofNat (((a * 16 + b) * 16 + c) * 16 + d) :: acc)
        | _, _, _, _ => none
      | _ => none
    | _ => none
  | c :: rest, acc => if c.toNat < 32 then none else parseJStringAux rest (c :: acc)
  | [], _ => none

/-- Longest digit run at the head of the input. -/
def spanDigits : List Char → (List Char × List Char)
  | [] => ([], [])
  | c :: cs =>
    if c.isDigit then
      let r := spanDigits cs
      (c :: r.1, r.2)
    else ([], c :: cs)

/-- Numeric value of a digit run. -/
def digitsToNat : List Char → Nat → Nat
  | [], acc => acc
  | c :: cs, acc => digitsToNat cs (acc * 10 + (c.toNat - 48))

/-- JSON number literal (integral part only; a following `.`, `e` or `E`
makes the whole decode fail — float literals are outside the model). -/
def parseJNum (cs : List Char) : Option (Json × List Char) :=
  let p : Bool × List Char :=
    match cs with
    | '-' :: t => (true, t)
    | _ => (false, cs)
  match spanDigits p.2 with
  | ([], _) => none
  | (ds, rest) =>
    if ds.head? = some '0' ∧ 1 < ds.length then none
    else
      match rest with
      | '.' :: _ => none
      | 'e' :: _ => none
      | 'E' :: _ => none
      | _ =>
        let n : Int := (digitsToNat ds 0 : Int)
        some (Json.num (if p.1 then -n else n), rest)

mutual

/-- Fuel-indexed recursive-descent JSON value parser. -/
def parseJson : Nat → List Char → Option (Json × List Char)
  | 0, _ => none
  | Nat.succ fuel, cs =>
    match cs with
    | 'n' :: 'u' :: 'l' :: 'l' :: rest => some (Json.null, rest)
    | 't' :: 'r' :: 'u' :: 'e' :: rest => some (Json.bool true, rest)
    | 'f' :: 'a' :: 'l' :: 's' :: 'e' :: rest => some (Json.bool false, rest)
    | '"' :: rest =>
      match parseJStringAux rest [] with
      | some (s, r) => some (Json.str s, r)
      | none => none
    | '[' :: rest =>
      match skipWs rest with
      | ']' :: r2 => some (Json.arr [], r2)
      | r1 =>
        match parseArrItems fuel r1 with
        | some (xs, r2) => some (Json.arr xs, r2)
        | none => none
    | '{' :: rest =>
      match skipWs rest with
      | '}' :: r2 => some (Json.obj [], r2)
      | r1 =>
        match parseObjItems fuel r1 with
        | some (kvs, r2) => some (Json.obj kvs, r2)
        | none => none
    | _ => parseJNum cs

/-- Comma-separated array elements, up to and including `]`. -/
def parseArrItems : Nat → List Char → Option (List Json × List Char)
  | 0, _ => none
  | Nat.succ fuel, cs =>
    match parseJson fuel cs with
    | none => none
    | some (v, r) =>
      match skipWs r with
      | ',' :: r2 =>
        match parseArrItems fuel (skipWs r2) with
        | some (xs, r3) => some (v :: xs, r3)
        | none => none
      | ']' :: r2 => some ([v], r2)
      | _ => none

/-- Comma-separated object members, up to and including the closing
brace. -/
def parseObjItems : Nat → List Char → Option (List (String × Json) × List Char)
  | 0, _ => none
  | Nat.succ fuel, cs =>
    match cs with
    | '"' :: rest =>
      match parseJStringAux rest [] with
      | none => none
      | some (k, r) =>
        match skipWs r with
        | ':' :: r2 =>
          match parseJson fuel (skipWs r2) with
          | none => none
          | some (v, r3) =>
            match skipWs r3 with
            | ',' :: r4 =>
              match parseObjItems fuel (skipWs r4) with
              | some (kvs, r5) => some ((k, v) :: kvs, r5)
              | none => none
            | '}' :: r4 => some ([(k, v)], r4)
            | _ => none
        | _ => none
    | _ => none

end

/-- Python `json.loads`: decode one JSON document with surrounding
whitespace; any trailing garbage makes the decode fail (raise). -/
def jsonDecode (s : String) : Option Json :=
  match parseJson (2 * s.data.length + 2) (skipWs s.data) with
  | some (v, rest) => if skipWs rest = [] then some v else none
  | none => none

/-! ## Python `str()` of decoded JSON values -/

/-- Escaping used by Python `repr` on strings (simple single-quote
convention; only exercised through container values). -/
def pyEscChar (c : Char) : String :=
  if c = '\\' then "\\\\"
  else if c = '\'' then "\\'"
  else if c = '\n' then "\\n"
  else if c = '\r' then "\\r"
  else if c = '\t' then "\\t"
  else String.singleton c

/-- `repr`-escape every character of a string body. -/
def pyEsc (s : String) : String := String.join (s.data.map pyEscChar)

mutual

/-- Python `repr` of a decoded JSON value. -/
def pyRepr : Json → String
  | Json.null => "None"
  | Json.bool true => "True"
  | Json.bool false => "False"
  | Json.num n => toString n
  | Json.str s => "'" ++ pyEsc s ++ "'"
  | Json.arr l => "[" ++ ", ".intercalate (pyReprList l) ++ "]"
  | Json.obj kvs => "\x7b" ++ ", ".intercalate (pyReprPairs kvs) ++ "\x7d"

/-- `repr` of the elements of a list. -/
def pyReprList : List Json → List String
  | [] => []
  | v :: rest => pyRepr v :: pyReprList rest

/-- `repr` of the members of a dict. -/
def pyReprPairs : List (String × Json) → List String
  | [] => []
  | (k, v) :: rest => ("'" ++ pyEsc k ++ "': " ++ pyRepr v) :: pyReprPairs rest

end

/-- Python `str()` of a decoded JSON value (as applied to the `action`
field by the mapper). -/
def pyStr : Json → String
  | Json.str s => s
  | v => pyRepr v

/-! ## `mapper.py` -/

/-- `ACTION_INDEX = 3`: the action is the 4th pipe-separated field. -/
def ACTION_INDEX : Nat := 3

/-- The JSON attempt inside `parse_line`: `some key` exactly when
`json.loads` succeeds, yields a dict, and the dict holds a truthy
`action` member — in which case the key is `str(action).strip()`. -/
def jsonBranchResult (line : String) : Option String :=
  match jsonDecode line with
  | some (Json.obj kvs) =>
    match dictGet kvs "action" with
    | some v => if jsonTruthy v then some (pyStrip (pyStr v)) else none
    | none => none
  | _ => none

/-- `parts = [p.strip() for p in line.split("|")]`. -/
def pipeParts (line : String) : List String :=
  (splitOnChar '|' line.data).map (fun cs => pyStrip ⟨cs⟩)

/-- The pipe-separated fallback inside `parse_line`. -/
def pipeBranch (line : String) : Option String :=
  let parts := pipeParts line
  if parts.length ≤ ACTION_INDEX then none
  else
    let action := pyStrip (parts.getD ACTION_INDEX "")
    if action = "" then none else some action

/-- `mapper.parse_line`: strip the line terminator, reject empty lines,
try JSON, then fall back to the pipe-separated format. -/
def parse_line (line : String) : Option String :=
  let l := rstripCRLF line
  if l = "" then none
  else
    match jsonBranchResult l with
    | some k => some k
    | none => pipeBranch l

/-- Observable behaviour of `mapper.main` on one input line. -/
inductive MapEvent where
  /-- `print(action, "1", sep="\t")` on stdout. -/
  | emit (key : String) : MapEvent
  /-- `print("mapper: skip malformed line", ..., file=sys.stderr)`. -/
  | diag : MapEvent
deriving Repr, DecidableEq

/-- Per-line behaviour of `mapper.main`. -/
def mapperEvent (line : String) : MapEvent :=
  match parse_line line with
  | none => MapEvent.diag
  | some a => MapEvent.emit a

/-- The stdout line produced for an emitted key:
`print(action, "1", sep="\t")`. -/
def pairLine (key : String) : String := key ++ "\t" ++ "1"

/-! ## `reducer.py` -/

/-- Observable behaviour of `reducer.main` on one input line. -/
inductive RedEvent where
  /-- skipped with no output (empty line, or empty key after strip). -/
  | silent : RedEvent
  /-- `print("reducer: skip malformed line", ..., file=sys.stderr)`. -/
  | malformed : RedEvent
  /-- `print("reducer: skip non-integer count", ..., file=sys.stderr)`. -/
  | nonInteger : RedEvent
  /-- `counts[action] += count`. -/
  | add (key : String) (count : Int) : RedEvent
deriving Repr, DecidableEq

/-- Per-line classification in `reducer.main`: strip the terminator,
skip empty lines, split on the first tab (`line.split("\t", 1)`),
require a non-empty stripped key, parse the stripped value with `int`. -/
def processLine (line : String) : RedEvent :=
  let l := rstripCRLF line
  if l = "" then RedEvent.silent
  else
    match splitFirstTab l.data with
    | none => RedEvent.malformed
    | some (a, b) =>
      let action := pyStrip ⟨a⟩
      let value := pyStrip ⟨b⟩
      if action = "" then RedEvent.silent
      else
        match pyInt value with
        | none => RedEvent.nonInteger
        | some c => RedEvent.add action c

/-- `counts[action] += count` on the insertion-ordered table
(`defaultdict(int)`: a missing key starts from 0, i.e. a new entry is
appended with value `count`). -/
def updateAdd : List (String × Int) → String → Int → List (String × Int)
  | [], k, c => [(k, c)]
  | (k', v) :: rest, k, c =>
    if k' = k then (k', v + c) :: rest else (k', v) :: updateAdd rest k c

/-- One iteration of the reducer's input loop acting on the table. -/
def redStep (m : List (String × Int)) (line : String) : List (String × Int) :=
  match processLine line with
  | RedEvent.add k c => updateAdd m k c
  | _ => m

/-- The table after consuming the whole input stream. -/
def aggregate (lines : List String) : List (String × Int) :=
  lines.foldl redStep []

/-- The output order `key=lambda x: (-x[1], x[0])`: larger totals first,
ties by key ascending.  This relation is total, transitive and
antisymmetric, so together with being a permutation it characterises
Python's `sorted` uniquely. -/
def redLE (a b : String × Int) : Prop :=
  b.2 < a.2 ∨ (a.2 = b.2 ∧ a.1 ≤ b.1)

instance : DecidableRel redLE := fun a b =>
  if h1 : b.2 < a.2 then isTrue (Or.inl h1)
  else if h2 : a.2 = b.2 ∧ a.1 ≤ b.1 then isTrue (Or.inr h2)
  else
    isFalse (by
      intro h
      cases h with
      | inl h => exact h1 h
      | inr h => exact h2 h)

/-- `sorted(counts.items(), key=lambda x: (-x[1], x[0]))`: the final,
deterministically ordered Aggregate Result. -/
def aggregatorOutput (lines : List String) : List (String × Int) :=
  List.insertionSort redLE (aggregate lines)

/-! ## Order properties of the output ordering -/

instance : IsTotal (String × Int) redLE :=
  ⟨fun a b => by
    rcases lt_trichotomy a.2 b.2 with h | h | h
    · exact Or.inr (Or.inl h)
    · rcases le_total a.1 b.1 with hs | hs
      · exact Or.inl (Or.inr ⟨h, hs⟩)
      · exact Or.inr (Or.inr ⟨h.symm, hs⟩)
    · exact Or.inl (Or.inl h)⟩

instance : IsTrans (String × Int) redLE :=
  ⟨fun a b c hab hbc => by
    rcases hab with h1 | ⟨e1, s1⟩ <;> rcases hbc with h2 | ⟨e2, s2⟩
    · exact Or.inl (h2.trans h1)
    · exact Or.inl (by omega)
    · exact Or.inl (by omega)
    · exact Or.inr ⟨e1.trans e2, s1.trans s2⟩⟩

instance : IsAntisymm (String × Int) redLE :=
  ⟨fun a b hab hba => by
    rcases hab with h1 | ⟨e1, s1⟩ <;> rcases hba with h2 | ⟨e2, s2⟩
    · exact absurd (h1.trans h2) (lt_irrefl _)
    · exact absurd h1 (by omega)
    · exact absurd h2 (by omega)
    · exact Prod.ext (le_antisymm s1 s2) e1⟩

/-! ## The key set of the running-total table -/

theorem updateAdd_keys (m : List (String × Int)) (k : String) (c : Int) :
    (updateAdd m k c).map Prod.fst =
      if k ∈ m.map Prod.fst then m.map Prod.fst else m.map Prod.fst ++ [k] := by
  induction m with
  | nil => simp [updateAdd]
  | cons p rest ih =>
    obtain ⟨k', v⟩ := p
    by_cases hk : k' = k
    · subst hk
      simp [updateAdd]
    · simp only [updateAdd, if_neg hk, List.map_cons, ih]
      by_cases hm : k ∈ rest.map Prod.fst
      · simp [hm, Ne.symm hk]
      · simp [hm, Ne.symm hk]

theorem updateAdd_keys_nodup (m : List (String × Int)) (k : String) (c : Int)
    (h : (m.map Prod.fst).Nodup) : ((updateAdd m k c).map Prod.fst).Nodup := by
  rw [updateAdd_keys]
  by_cases hm : k ∈ m.map Prod.fst
  · simpa [hm] using h
  · simp only [hm, if_false]
    simpa [List.nodup_append, hm] using h

theorem foldl_redStep_keys_nodup (lines : List String) (m : List (String × Int))
    (h : (m.map Prod.fst).Nodup) :
    ((lines.foldl redStep m).map Prod.fst).Nodup := by
  induction lines generalizing m with
  | nil => simpa using h
  | cons l rest ih =>
    simp only [List.foldl_cons]
    apply ih
    unfold redStep
    cases processLine l with
    | add k c => exact updateAdd_keys_nodup m k c h
    | silent => exact h
    | malformed => exact h
    | nonInteger => exact h

theorem aggregate_keys_nodup (lines : List String) :
    ((aggregate lines).map Prod.fst).Nodup :=
  foldl_redStep_keys_nodup lines [] (by simp)

/-- C1: for every finite input stream, the Aggregate Result is ordered
with totals non-increasing, and among entries with equal totals the keys
are strictly increasing. -/
theorem C1_sort_contract (lines : List String) :
    List.Pairwise (fun a b : String × Int => b.2 ≤ a.2 ∧ (a.2 = b.2 → a.1 < b.1))
      (aggregatorOutput lines) := by
  have hs : List.Sorted redLE (aggregatorOutput lines) :=
    List.sorted_insertionSort redLE (aggregate lines)
  have hp : (aggregatorOutput lines).Perm (aggregate lines) :=
    List.perm_insertionSort redLE (aggregate lines)
  have hn : ((aggregatorOutput lines).map Prod.fst).Nodup :=
    ((hp.map Prod.fst).nodup_iff).mpr (aggregate_keys_nodup lines)
  have hne : List.Pairwise (fun a b : String × Int => a.1 ≠ b.1) (aggregatorOutput lines) :=
    List.pairwise_map.mp hn
  refine (List.Pairwise.and hs hne).imp ?_
  rintro a b ⟨hab, hne1⟩
  rcases hab with h | ⟨e, s⟩
  · exact ⟨le_of_lt h, fun e => absurd h (by omega)⟩
  · exact ⟨le_of_eq e.symm, fun _ => lt_of_le_of_ne s hne1⟩

/-! ## Characterisation of the running totals -/

/-- Lookup in the running-total table (with keys unique, as `aggregate`
maintains, this is the Python dict lookup). -/
def lookupK (k : String) : List (String × Int) → Option Int
  | [] => none
  | (k', v) :: rest => if k' = k then some v else lookupK k rest

/-- The `(key, count)` pair a reducer input line contributes, if any. -/
def evOf (l : String) : Option (String × Int) :=
  match processLine l with
  | RedEvent.add k c => some (k, c)
  | _ => none

/-- All contributing `(key, count)` pairs of an input stream, in order. -/
def addsOf (lines : List String) : List (String × Int) := lines.filterMap evOf

/-- `updateAdd` uncurried over one contributing pair. -/
def upd (m : List (String × Int)) (p : String × Int) : List (String × Int) :=
  updateAdd m p.1 p.2

/-- Whether any contributing pair carries key `k`. -/
def hitsK (k : String) (evs : List (String × Int)) : Bool :=
  evs.any (fun p => p.1 == k)

/-- Sum of the counts contributed for key `k`. -/
def totalK (k : String) (evs : List (String × Int)) : Int :=
  ((evs.filter (fun p => p.1 == k)).map Prod.snd).sum

theorem foldl_redStep_eq (lines : List String) (m : List (String × Int)) :
    lines.foldl redStep m = (addsOf lines).foldl upd m := by
  induction lines generalizing m with
  | nil => simp [addsOf]
  | cons l t ih =>
    simp only [List.foldl_cons, addsOf, List.filterMap_cons]
    cases h : processLine l with
    | add k c =>
      simp only [redStep, h, evOf, List.foldl_cons]
      exact ih (updateAdd m k c)
    | silent => simpa [redStep, h, evOf] using ih m
    | malformed => simpa [redStep, h, evOf] using ih m
    | nonInteger => simpa [redStep, h, evOf] using ih m

theorem lookupK_updateAdd (m : List (String × Int)) (k' k : String) (c : Int) :
    lookupK k' (updateAdd m k c) =
      if k' = k then some ((lookupK k' m).getD 0 + c) else lookupK k' m := by
  induction m with
  | nil =>
    by_cases h : k' = k
    · subst h; simp [updateAdd, lookupK]
    · simp [updateAdd, lookupK, h, Ne.symm h]
  | cons p rest ih =>
    obtain ⟨k₁, v⟩ := p
    by_cases h1 : k₁ = k
    · subst h1
      by_cases h2 : k' = k₁
      · subst h2; simp [updateAdd, lookupK]
      · simp [updateAdd, lookupK, h2, Ne.symm h2]
    · by_cases h2 : k₁ = k'
      · subst h2
        simp [updateAdd, lookupK, h1]
      · simp only [updateAdd, if_neg h1, lookupK, if_neg h2, ih]

theorem hitsK_cons (k : String) (p : String × Int) (t : List (String × Int)) :
    hitsK k (p :: t) = ((p.1 == k) || hitsK k t) := by
  simp [hitsK]

theorem totalK_cons (k : String) (p : String × Int) (t : List (String × Int)) :
    totalK k (p :: t) = if p.1 = k then p.2 + totalK k t else totalK k t := by
  by_cases h : p.1 = k
  · simp [totalK, List.filter_cons, h]
  · simp [totalK, List.filter_cons, h]

theorem totalK_eq_zero (k : String) (evs : List (String × Int))
    (h : hitsK k evs = false) : totalK k evs = 0 := by
  have : evs.filter (fun p => p.1 == k) = [] := by
    rw [List.filter_eq_nil_iff]
    intro p hp
    have := (List.any_eq_false.mp h) p hp
    simpa using this
  simp [totalK, this]

theorem lookupK_foldl_upd (evs : List (String × Int)) (m : List (String × Int)) (k : String) :
    lookupK k (evs.foldl upd m) =
      if hitsK k evs then some ((lookupK k m).getD 0 + totalK k evs) else lookupK k m := by
  induction evs generalizing m with
  | nil => simp [hitsK]
  | cons p t ih =>
    simp only [List.foldl_cons]
    rw [ih (upd m p)]
    have hupd : lookupK k (upd m p) =
        if k = p.1 then some ((lookupK k m).getD 0 + p.2) else lookupK k m :=
      lookupK_updateAdd m k p.1 p.2
    by_cases hp : p.1 = k
    · rw [if_pos hp.symm] at hupd
      have hh : hitsK k (p :: t) = true := by simp [hitsK_cons, hp]
      rw [hh, if_pos rfl, totalK_cons, if_pos hp, hupd]
      by_cases ht : hitsK k t
      · rw [if_pos ht]
        simp [add_assoc]
      · rw [if_neg ht, totalK_eq_zero k t (by simpa using ht)]
        simp
    · rw [if_neg (fun e => hp e.symm)] at hupd
      have hh : hitsK k (p :: t) = hitsK k t := by
        simp [hitsK_cons, hp]
      rw [hh, totalK_cons, if_neg hp, hupd]

theorem lookupK_aggregate (lines : List String) (k : String) :
    lookupK k (aggregate lines) =
      if hitsK k (addsOf lines) then some (totalK k (addsOf lines)) else none := by
  rw [aggregate, foldl_redStep_eq, lookupK_foldl_upd]
  simp [lookupK]

theorem hitsK_perm (k : String) (evs₁ evs₂ : List (String × Int))
    (h : evs₁.Perm evs₂) : hitsK k evs₁ = hitsK k evs₂ := by
  rw [Bool.eq_iff_iff]
  simp only [hitsK, List.any_eq_true]
  exact ⟨fun ⟨p, hp, e⟩ => ⟨p, h.subset hp, e⟩, fun ⟨p, hp, e⟩ => ⟨p, h.symm.subset hp, e⟩⟩

theorem totalK_perm (k : String) (evs₁ evs₂ : List (String × Int))
    (h : evs₁.Perm evs₂) : totalK k evs₁ = totalK k evs₂ :=
  ((h.filter (fun p : String × Int => p.1 == k)).map Prod.snd).sum_eq

/-! ## Tables with the same totals are permutations of each other -/

/-- Remove the first occurrence of a pair from the table. -/
def eraseFirst (kv : String × Int) : List (String × Int) → List (String × Int)
  | [] => []
  | p :: t => if p = kv then t else p :: eraseFirst kv t

theorem perm_cons_eraseFirst (kv : String × Int) (l : List (String × Int))
    (hm : kv ∈ l) : l.Perm (kv :: eraseFirst kv l) := by
  induction l with
  | nil => simp at hm
  | cons p t ih =>
    by_cases he : p = kv
    · subst he
      simp [eraseFirst]
    · have hm' : kv ∈ t := by
        rcases List.mem_cons.mp hm with h | h
        · exact absurd h.symm he
        · exact h
      rw [eraseFirst, if_neg he]
      exact (List.Perm.cons p (ih hm')).trans (List.Perm.swap kv p _)

theorem eraseFirst_sublist (kv : String × Int) (l : List (String × Int)) :
    (eraseFirst kv l).Sublist l := by
  induction l with
  | nil => simp [eraseFirst]
  | cons p t ih =>
    by_cases he : p = kv
    · rw [eraseFirst, if_pos he]
      exact (List.sublist_cons_self p t)
    · rw [eraseFirst, if_neg he]
      exact ih.cons₂ p

theorem lookupK_eq_none (k : String) (l : List (String × Int))
    (h : k ∉ l.map Prod.fst) : lookupK k l = none := by
  induction l with
  | nil => rfl
  | cons p t ih =>
    obtain ⟨k', v⟩ := p
    simp only [List.map_cons, List.mem_cons] at h
    push_neg at h
    simp only [lookupK, if_neg (Ne.symm h.1), ih h.2]

theorem mem_of_lookupK (k : String) (v : Int) (l : List (String × Int))
    (h : lookupK k l = some v) : (k, v) ∈ l := by
  induction l with
  | nil => simp [lookupK] at h
  | cons p t ih =>
    obtain ⟨k', v'⟩ := p
    by_cases he : k' = k
    · subst he
      simp [lookupK] at h
      subst h
      exact List.mem_cons_self _ _
    · simp only [lookupK, if_neg he] at h
      exact List.mem_cons_of_mem _ (ih h)

theorem lookupK_eraseFirst_ne (k' k₁ : String) (v₁ : Int) (l : List (String × Int))
    (hne : k' ≠ k₁) : lookupK k' (eraseFirst (k₁, v₁) l) = lookupK k' l := by
  induction l with
  | nil => rfl
  | cons p t ih =>
    by_cases he : p = (k₁, v₁)
    · subst he
      rw [eraseFirst, if_pos rfl]
      simp only [lookupK]
      rw [if_neg (fun e => hne e.symm)]
    · rw [eraseFirst, if_neg he]
      obtain ⟨ka, va⟩ := p
      by_cases h1 : ka = k'
      · simp [lookupK, h1]
      · simp only [lookupK, if_neg h1, ih]

theorem perm_of_lookupK_eq (l₁ : List (String × Int)) :
    ∀ l₂ : List (String × Int), (l₁.map Prod.fst).Nodup → (l₂.map Prod.fst).Nodup →
      (∀ k, lookupK k l₁ = lookupK k l₂) → l₁.Perm l₂ := by
  induction l₁ with
  | nil =>
    intro l₂ _ _ h
    cases l₂ with
    | nil => exact List.Perm.refl []
    | cons p t =>
      obtain ⟨k, v⟩ := p
      have := h k
      simp [lookupK] at this
  | cons p t₁ ih =>
    intro l₂ h₁ h₂ h
    obtain ⟨k, v⟩ := p
    have hlook : lookupK k l₂ = some v := by
      rw [← h k]
      simp [lookupK]
    have hmem : (k, v) ∈ l₂ := mem_of_lookupK k v l₂ hlook
    have hperm2 : l₂.Perm ((k, v) :: eraseFirst (k, v) l₂) := perm_cons_eraseFirst _ _ hmem
    have hkeys2 : (k :: (eraseFirst (k, v) l₂).map Prod.fst).Nodup := by
      have := (hperm2.map Prod.fst).nodup_iff.mp h₂
      simpa using this
    have hknotin : k ∉ (eraseFirst (k, v) l₂).map Prod.fst := (List.nodup_cons.mp hkeys2).1
    simp only [List.map_cons, List.nodup_cons] at h₁
    have ht : t₁.Perm (eraseFirst (k, v) l₂) := by
      refine ih _ h₁.2 (List.Nodup.sublist ((eraseFirst_sublist _ _).map Prod.fst) h₂) ?_
      intro k'
      by_cases hk : k' = k
      · subst hk
        rw [lookupK_eq_none _ _ h₁.1, lookupK_eq_none _ _ hknotin]
      · have e1 : lookupK k' ((k, v) :: t₁) = lookupK k' t₁ := by
          simp only [lookupK]
          rw [if_neg (fun e => hk e.symm)]
        rw [← e1, h k', lookupK_eraseFirst_ne k' k v l₂ hk]
    exact (ht.cons (k, v)).trans hperm2.symm

/-- C2: permuting the Aggregator's input lines changes neither the
content nor the order of the Aggregate Result. -/
theorem C2_order_invariance (ls₁ ls₂ : List String) (h : ls₁.Perm ls₂) :
    aggregatorOutput ls₁ = aggregatorOutput ls₂ := by
  have hadds : (addsOf ls₁).Perm (addsOf ls₂) := h.filterMap evOf
  have hlook : ∀ k, lookupK k (aggregate ls₁) = lookupK k (aggregate ls₂) := by
    intro k
    rw [lookupK_aggregate, lookupK_aggregate, hitsK_perm k _ _ hadds, totalK_perm k _ _ hadds]
  have hagg : (aggregate ls₁).Perm (aggregate ls₂) :=
    perm_of_lookupK_eq _ _ (aggregate_keys_nodup ls₁) (aggregate_keys_nodup ls₂) hlook
  exact List.eq_of_perm_of_sorted
    ((List.perm_insertionSort redLE _).trans (hagg.trans (List.perm_insertionSort redLE _).symm))
    (List.sorted_insertionSort redLE _) (List.sorted_insertionSort redLE _)

/-- Witness for C2: a concrete permuted pair of input streams. -/
theorem C2_order_invariance_witness :
    aggregatorOutput ["A\t1", "B\t2", "A\t3"] = aggregatorOutput ["B\t2", "A\t3", "A\t1"] :=
  C2_order_invariance ["A\t1", "B\t2", "A\t3"] ["B\t2", "A\t3", "A\t1"] (by decide)

/-! ## Non-negativity of totals (C9) -/

/-- The count a reducer event adds (0 for non-contributing events). -/
def eventCount : RedEvent → Int
  | RedEvent.add _ c => c
  | _ => 0

theorem updateAdd_nonneg (m : List (String × Int)) (k : String) (c : Int)
    (hc : 0 ≤ c) (hm : ∀ p ∈ m, 0 ≤ p.2) : ∀ p ∈ updateAdd m k c, 0 ≤ p.2 := by
  induction m with
  | nil =>
    intro p hp
    simp only [updateAdd, List.mem_singleton] at hp
    subst hp
    exact hc
  | cons q rest ih =>
    obtain ⟨k', v⟩ := q
    intro p hp
    by_cases h : k' = k
    · rw [updateAdd, if_pos h] at hp
      rcases List.mem_cons.mp hp with he | ht
      · subst he
        exact add_nonneg (hm (k', v) (List.mem_cons_self _ _)) hc
      · exact hm p (List.mem_cons_of_mem _ ht)
    · rw [updateAdd, if_neg h] at hp
      rcases List.mem_cons.mp hp with he | ht
      · subst he
        exact hm (k', v) (List.mem_cons_self _ _)
      · exact ih (fun q hq => hm q (List.mem_cons_of_mem _ hq)) p ht

theorem foldl_redStep_nonneg (lines : List String) (m : List (String × Int))
    (hl : ∀ l ∈ lines, 0 ≤ eventCount (processLine l)) (hm : ∀ p ∈ m, 0 ≤ p.2) :
    ∀ p ∈ lines.foldl redStep m, 0 ≤ p.2 := by
  induction lines generalizing m with
  | nil => simpa using hm
  | cons l t ih =>
    simp only [List.foldl_cons]
    refine ih _ (fun l' hl' => hl l' (List.mem_cons_of_mem _ hl')) ?_
    unfold redStep
    cases h : processLine l with
    | add k c =>
      have := hl l (List.mem_cons_self _ _)
      rw [h] at this
      exact updateAdd_nonneg m k c this hm
    | silent => exact hm
    | malformed => exact hm
    | nonInteger => exact hm

/-- C9 counterexample: the value parser accepts negative integers, so a
total can be negative in the Aggregate Result. -/
theorem C9_counterexample :
    aggregatorOutput ["A\t-1"] = [("A", -1)] ∧ ¬ (0 : Int) ≤ (-1 : Int) :=
  ⟨by decide, by decide⟩

/-- C9 (amended): totals start at 0 on first sight of a key and only
receive added parsed counts; whenever every contributing count of the
stream is non-negative (as with Key Emitter input, where every count is
1), every total in the Aggregate Result is non-negative. -/
theorem C9_totals_nonneg (lines : List String)
    (h : ∀ l ∈ lines, 0 ≤ eventCount (processLine l)) :
    ∀ p ∈ aggregatorOutput lines, 0 ≤ p.2 := by
  intro p hp
  have hp' : p ∈ aggregate lines := (List.perm_insertionSort redLE _).subset hp
  exact foldl_redStep_nonneg lines [] h (by simp) p hp'

/-- Witness for C9: a concrete all-non-negative stream. -/
theorem C9_totals_nonneg_witness : (0 : Int) ≤ (("A", (2 : Int)) : String × Int).2 :=
  C9_totals_nonneg ["A\t2"] (by decide) ("A", 2) (by decide)

/-! ## The structured-record (JSON) branch of `parse_line` -/

theorem jsonDecode_empty : jsonDecode "" = none := rfl

theorem jsonDecode_ne_empty (s : String) (j : Json) (h : jsonDecode s = some j) :
    s ≠ "" := by
  intro e
  rw [e, jsonDecode_empty] at h
  exact Option.noConfusion h

/-- Whenever `json.loads` yields a dict with a truthy `action` member,
`parse_line` returns `str(action).strip()`. -/
theorem parse_line_json (s : String) (kvs : List (String × Json)) (v : Json)
    (hd : jsonDecode (rstripCRLF s) = some (Json.obj kvs))
    (hg : dictGet kvs "action" = some v)
    (ht : jsonTruthy v = true) :
    parse_line s = some (pyStrip (pyStr v)) := by
  have hne : rstripCRLF s ≠ "" := jsonDecode_ne_empty _ _ hd
  simp only [parse_line, if_neg hne]
  simp only [jsonBranchResult, hd, hg, ht, if_true]

/-- C3: for every line decoding as a structured record with a non-empty
(primitive, stringified) `action` value, `parse` returns that value
stringified and trimmed. -/
theorem C3_json_action_key (s : String) (kvs : List (String × Json)) (v : Json)
    (hd : jsonDecode (rstripCRLF s) = some (Json.obj kvs))
    (hg : dictGet kvs "action" = some v)
    (_hp : v.isPrimitive) (ht : jsonTruthy v = true) :
    parse_line s = some (pyStrip (pyStr v)) :=
  parse_line_json s kvs v hd hg ht

/-- Witness for C3: the spec's Scenario 1 input. -/
theorem C3_json_action_key_witness :
    parse_line "\x7b\"action\":\"LOGIN\"\x7d" = some "LOGIN" :=
  (C3_json_action_key "\x7b\"action\":\"LOGIN\"\x7d" [("action", Json.str "LOGIN")]
    (Json.str "LOGIN") rfl rfl trivial rfl).trans rfl

/-! ## The pipe-separated branch of `parse_line` (C4, C5) -/

/-- C4 as stated is false: on a line that is also a valid structured
record with a truthy `action`, the JSON branch wins even though the line
splits into 4 pipe-separated fields with a non-empty 4th field. -/
theorem C4_counterexample :
    (pipeParts (rstripCRLF "\x7b\"action\":\"go\",\"m\":\"a|b|c|d\"\x7d")).length = 4 ∧
    pyStrip ((pipeParts
      (rstripCRLF "\x7b\"action\":\"go\",\"m\":\"a|b|c|d\"\x7d")).getD ACTION_INDEX "")
      = "d\"\x7d" ∧
    parse_line "\x7b\"action\":\"go\",\"m\":\"a|b|c|d\"\x7d" = some "go" ∧
    "go" ≠ "d\"\x7d" :=
  ⟨rfl, rfl, rfl, by decide⟩

/-- C4 (amended): for every line on which the structured-record branch
does not produce a key, if the pipe-split has more than `ACTION_INDEX`
fields and the trimmed 4th field is non-empty, `parse` returns that
field trimmed. -/
theorem C4_pipe_key (s : String)
    (hj : jsonBranchResult (rstripCRLF s) = none)
    (hlen : ACTION_INDEX < (pipeParts (rstripCRLF s)).length)
    (hne : pyStrip ((pipeParts (rstripCRLF s)).getD ACTION_INDEX "") ≠ "") :
    parse_line s = some (pyStrip ((pipeParts (rstripCRLF s)).getD ACTION_INDEX "")) := by
  have hs : rstripCRLF s ≠ "" := by
    intro e
    rw [e] at hlen
    exact absurd hlen (by decide)
  simp only [parse_line, if_neg hs, hj, pipeBranch, if_neg (not_le.mpr hlen), if_neg hne]

/-- Witness for C4 (amended): the plain delimited line `a|b|c|d`. -/
theorem C4_pipe_key_witness : parse_line "a|b|c|d" = some "d" :=
  (C4_pipe_key "a|b|c|d" rfl (by decide) (by decide)).trans rfl

/-- C5 as stated is false: `\x7b"action":"LOGIN"\x7d` splits into a
single pipe-separated field (fewer than 4), yet `parse` succeeds via the
structured-record branch (the spec's own Scenario 1). -/
theorem C5_counterexample :
    (pipeParts (rstripCRLF "\x7b\"action\":\"LOGIN\"\x7d")).length = 1 ∧
    parse_line "\x7b\"action\":\"LOGIN\"\x7d" = some "LOGIN" :=
  ⟨rfl, rfl⟩

/-- C5 (amended): for every line on which the structured-record branch
does not produce a key, if the line is empty, splits into at most
`ACTION_INDEX` pipe-separated fields, or has an empty trimmed 4th field,
`parse` fails. -/
theorem C5_parse_failure (s : String)
    (hj : jsonBranchResult (rstripCRLF s) = none)
    (h : rstripCRLF s = "" ∨ (pipeParts (rstripCRLF s)).length ≤ ACTION_INDEX ∨
         pyStrip ((pipeParts (rstripCRLF s)).getD ACTION_INDEX "") = "") :
    parse_line s = none := by
  by_cases he : rstripCRLF s = ""
  · simp only [parse_line, if_pos he]
  · rcases h with h0 | hlen | hemp
    · exact absurd h0 he
    · simp only [parse_line, if_neg he, hj, pipeBranch, if_pos hlen]
    · by_cases hlen : (pipeParts (rstripCRLF s)).length ≤ ACTION_INDEX
      · simp only [parse_line, if_neg he, hj, pipeBranch, if_pos hlen]
      · simp only [parse_line, if_neg he, hj, pipeBranch, if_neg hlen, if_pos hemp]

/-- Witness for C5 (amended): a delimited line with only 3 fields. -/
theorem C5_parse_failure_witness : parse_line "a|b|c" = none :=
  C5_parse_failure "a|b|c" rfl (Or.inr (Or.inl (by decide)))

/-! ## Keys produced by `parse_line` are stripped (C6) -/

theorem dropWhile_no_lead (p : Char → Bool) (cs : List Char) :
    ∀ c t, cs.dropWhile p = c :: t → p c = false := by
  induction cs with
  | nil => intro c t h; simp at h
  | cons x xs ih =>
    intro c t h
    by_cases hx : p x
    · rw [List.dropWhile_cons, if_pos hx] at h
      exact ih c t h
    · rw [List.dropWhile_cons, if_neg hx] at h
      cases h
      simpa using hx

theorem dropWhile_eq_self (p : Char → Bool) (l : List Char)
    (h : ∀ c t, l = c :: t → p c = false) : l.dropWhile p = l := by
  cases l with
  | nil => rfl
  | cons c t => simp [List.dropWhile_cons, h c t rfl]

theorem dropWhile_idem (p : Char → Bool) (l : List Char) :
    (l.dropWhile p).dropWhile p = l.dropWhile p := by
  induction l with
  | nil => rfl
  | cons c t ih =>
    by_cases h : p c <;> simp [List.dropWhile_cons, h, ih]

/-- The strip of a string is a prefix of its left-trim. -/
theorem stripCore_prefix (l : List Char) :
    ∃ rest, trimR (trimL l) ++ rest = trimL l := by
  obtain ⟨t, ht⟩ := List.dropWhile_suffix (l := (trimL l).reverse) isPySpace
  refine ⟨t.reverse, ?_⟩
  have := congrArg List.reverse ht
  rw [List.reverse_append] at this
  simpa [trimR, trimL] using this

theorem stripCore_idem (l : List Char) :
    trimR (trimL (trimR (trimL l))) = trimR (trimL l) := by
  have h1 : trimL (trimR (trimL l)) = trimR (trimL l) := by
    apply dropWhile_eq_self
    intro c t he
    obtain ⟨rest, hrest⟩ := stripCore_prefix l
    rw [he] at hrest
    exact dropWhile_no_lead isPySpace l c (t ++ rest)
      (by simp only [trimL] at hrest; exact hrest.symm)
  rw [h1]
  show (((trimR (trimL l)).reverse.dropWhile isPySpace)).reverse = trimR (trimL l)
  rw [trimR, trimL, List.reverse_reverse, dropWhile_idem]

/-- `str.strip()` is idempotent. -/
theorem pyStrip_idem (s : String) : pyStrip (pyStrip s) = pyStrip s :=
  congrArg String.mk (stripCore_idem s.data)

/-- Every key produced by the structured-record branch is the strip of a
stringified value. -/
theorem jsonBranchResult_shape (l k : String) (h : jsonBranchResult l = some k) :
    ∃ v, k = pyStrip (pyStr v) := by
  unfold jsonBranchResult at h
  cases hd : jsonDecode l with
  | none => simp [hd] at h
  | some j =>
    cases j with
    | null => simp [hd] at h
    | bool b => simp [hd] at h
    | num n => simp [hd] at h
    | str s' => simp [hd] at h
    | arr l' => simp [hd] at h
    | obj kvs =>
      simp only [hd] at h
      cases hg : dictGet kvs "action" with
      | none => simp [hg] at h
      | some v =>
        simp only [hg] at h
        by_cases ht : jsonTruthy v
        · rw [if_pos ht] at h
          exact ⟨v, (Option.some.inj h).symm⟩
        · rw [if_neg ht] at h
          exact Option.noConfusion h

/-- Every key produced by the pipe-separated branch is the (non-empty)
strip of the 4th field. -/
theorem pipeBranch_shape (l k : String) (h : pipeBranch l = some k) :
    k = pyStrip ((pipeParts l).getD ACTION_INDEX "") ∧ k ≠ "" := by
  unfold pipeBranch at h
  by_cases hlen : (pipeParts l).length ≤ ACTION_INDEX
  · rw [if_pos hlen] at h
    exact Option.noConfusion h
  · rw [if_neg hlen] at h
    by_cases hemp : pyStrip ((pipeParts l).getD ACTION_INDEX "") = ""
    · rw [if_pos hemp] at h
      exact Option.noConfusion h
    · rw [if_neg hemp] at h
      have hk := Option.some.inj h
      exact ⟨hk.symm, hk ▸ hemp⟩

/-- C6 as stated is false: a structured record whose `action` is a
non-empty but whitespace-only string makes `parse` succeed with the
empty string as key. -/
theorem C6_counterexample : parse_line "\x7b\"action\":\" \"\x7d" = some "" := rfl

/-- C6 (amended): every key produced by `parse` carries no leading or
trailing whitespace (it equals its own strip); keys produced by the
pipe-separated branch are moreover non-empty, but a structured record
whose stringified `action` is whitespace-only yields the empty key. -/
theorem C6_key_stripped (s k : String) (h : parse_line s = some k) :
    pyStrip k = k ∧ (jsonBranchResult (rstripCRLF s) = none → k ≠ "") := by
  unfold parse_line at h
  by_cases he : rstripCRLF s = ""
  · rw [if_pos he] at h
    exact Option.noConfusion h
  · rw [if_neg he] at h
    cases hj : jsonBranchResult (rstripCRLF s) with
    | some k' =>
      simp only [hj, Option.some.injEq] at h
      obtain ⟨v, hv⟩ := jsonBranchResult_shape _ _ hj
      subst h
      constructor
      · rw [hv, pyStrip_idem]
      · intro hn
        exact Option.noConfusion hn
    | none =>
      simp only [hj] at h
      obtain ⟨hv, hne⟩ := pipeBranch_shape _ _ h
      exact ⟨by rw [hv, pyStrip_idem], fun _ => hne⟩

/-- Witness for C6 (amended): the key of a plain delimited line. -/
theorem C6_key_stripped_witness :
    pyStrip "d" = "d" ∧ (jsonBranchResult (rstripCRLF "a|b|c|d") = none → "d" ≠ "") :=
  C6_key_stripped "a|b|c|d" "d" rfl

/-! ## Empty lines (C7) and tab splitting (C8) -/

/-- C7 as stated is false for the Key Emitter: an empty input line is
reported on the diagnostic channel (`mapper: skip malformed line`), not
skipped silently; the Aggregator half does hold. -/
theorem C7_counterexample :
    mapperEvent "" = MapEvent.diag ∧ processLine "" = RedEvent.silent :=
  ⟨rfl, rfl⟩

/-- C7 (amended): on every empty input line the Key Emitter emits no
Intermediate Pair but does write a diagnostic (the malformed-line skip),
while the Aggregator's key stage skips the line silently. -/
theorem C7_empty_line (s : String) (h : rstripCRLF s = "") :
    mapperEvent s = MapEvent.diag ∧ processLine s = RedEvent.silent := by
  constructor
  · simp [mapperEvent, parse_line, h]
  · simp [processLine, h]

/-- Witness for C7 (amended): a bare line terminator. -/
theorem C7_empty_line_witness :
    mapperEvent "\r\n" = MapEvent.diag ∧ processLine "\r\n" = RedEvent.silent :=
  C7_empty_line "\r\n" rfl

/-- C8 as stated is false: a line with more than one tab still splits
into exactly two parts at the first tab (`split("\t", 1)`), is not
reported as malformed, and can even contribute to the totals — here
`A<TAB><TAB>1` adds 1 to key `A` because `"\t1".strip()` is `"1"`. -/
theorem C8_counterexample :
    processLine "A\t\t1" = RedEvent.add "A" 1 ∧ aggregate ["A\t\t1"] = [("A", 1)] :=
  ⟨rfl, rfl⟩

/-- C8 (amended): a non-empty line with no tab at all is reported as
malformed and skipped; a line with at least one tab is split at its
first tab, and when the trimmed key part is non-empty but the trimmed
value part is not a valid integer, the distinct non-integer diagnostic
is reported; malformed and non-integer lines leave the totals
unchanged. -/
theorem C8_tab_split (s : String) :
    (rstripCRLF s ≠ "" → splitFirstTab (rstripCRLF s).data = none →
      processLine s = RedEvent.malformed) ∧
    (∀ a b, splitFirstTab (rstripCRLF s).data = some (a, b) → pyStrip ⟨a⟩ ≠ "" →
      pyInt (pyStrip ⟨b⟩) = none → processLine s = RedEvent.nonInteger) ∧
    (∀ m, processLine s = RedEvent.malformed ∨ processLine s = RedEvent.nonInteger →
      redStep m s = m) := by
  refine ⟨?_, ?_, ?_⟩
  · intro hne hsp
    simp [processLine, if_neg hne, hsp]
  · intro a b hsp hk hint
    have hne : rstripCRLF s ≠ "" := by
      intro e
      rw [e] at hsp
      exact Option.noConfusion hsp
    simp [processLine, if_neg hne, hsp, if_neg hk, hint]
  · intro m h
    unfold redStep
    rcases h with h | h <;> rw [h]

/-- Witness for C8 (amended): a tabless line and a non-integer value. -/
theorem C8_tab_split_witness :
    processLine "AB1" = RedEvent.malformed ∧ processLine "X\tfoo" = RedEvent.nonInteger :=
  ⟨(C8_tab_split "AB1").1 (by decide) rfl,
   (C8_tab_split "X\tfoo").2.1 ['X'] ['f', 'o', 'o'] rfl (by decide) rfl⟩

/-! ## Whitespace-only `action` values (C10) -/

/-- C10: a structured record whose `action` is a non-empty but
whitespace-only string makes the Key Emitter emit the pair with the
empty key, and the Aggregator drops that pair silently, leaving its
table unchanged — such lines never reach the Aggregate Result. -/
theorem C10_ws_action_dropped (s : String) (kvs : List (String × Json)) (a : String)
    (hd : jsonDecode (rstripCRLF s) = some (Json.obj kvs))
    (hg : dictGet kvs "action" = some (Json.str a))
    (hne : a ≠ "") (hws : pyStrip a = "") :
    mapperEvent s = MapEvent.emit "" ∧ processLine (pairLine "") = RedEvent.silent ∧
      ∀ m, redStep m (pairLine "") = m := by
  have hp : parse_line s = some "" := by
    have ht : jsonTruthy (Json.str a) = true := by
      simp [jsonTruthy]
      exact hne
    have := parse_line_json s kvs (Json.str a) hd hg ht
    rw [this]
    simp only [pyStr, hws]
  refine ⟨by simp [mapperEvent, hp], rfl, fun m => rfl⟩

/-- Witness for C10: the record with a single-space `action`. -/
theorem C10_ws_action_dropped_witness :
    mapperEvent "\x7b\"action\":\" \"\x7d" = MapEvent.emit "" ∧
      processLine (pairLine "") = RedEvent.silent := by
  have h := C10_ws_action_dropped "\x7b\"action\":\" \"\x7d" [("action", Json.str " ")] " "
    rfl rfl (by decide) rfl
  exact ⟨h.1, h.2.1⟩
